import Mathlib

/-!
Verification development for the mangapill scraper/downloader.

The Rust sources are shallowly embedded:

* strings are `List Char` (the sources only ever manipulate ASCII data, so
  Rust's byte indices coincide with character indices);
* the HTTP layer is abstracted by explicit outcome values: `reqwest`'s
  `send()` either fails with a transport error or yields a response carrying
  a status code and a body-read outcome (`reqwest` does not turn a non-2xx
  status into an error by itself);
* HTML documents are abstracted by the lists of elements the CSS selectors
  of the source would produce (anchors of `#chapters a`, images of
  `div>chapter-page img`, `h1` headings);
* fallible/panicking code returns `Option`/`Except`; `none` models a panic.
-/

deriving instance DecidableEq for Except

/-- Strings of the embedded program: lists of characters. -/
abbrev Str := List Char

/-- `String.data` of a literal, used to spell concrete `Str` values. -/
def str (s : String) : Str := s.data

/-- Rust `char::is_whitespace`, restricted to the ASCII range the scraper
sees: U+0009..U+000D and U+0020. -/
def is_ws (c : Char) : Bool := c.toNat = 32 || (9 ≤ c.toNat && c.toNat ≤ 13)

/-- Rust `u8::is_ascii_digit` / the digit test `'0'..='9'`. -/
def is_digit (c : Char) : Bool := 48 ≤ c.toNat && c.toNat ≤ 57

/-- Rust `char::to_ascii_lowercase`: shift `'A'..='Z'` down by 32. -/
def to_ascii_lowercase (c : Char) : Char :=
  if 65 ≤ c.toNat && c.toNat ≤ 90 then Char.ofNat (c.toNat + 32) else c

/-- The per-character effect of `title.replace('/', "-")`. -/
def replace_slash (c : Char) : Char := if c = '/' then '-' else c

/-- Rust `str::trim_start` (ASCII scope). -/
def trim_start (l : Str) : Str := l.dropWhile is_ws

/-- Rust `str::trim` (ASCII scope): drop whitespace from both ends. -/
def trim (l : Str) : Str := ((l.dropWhile is_ws).reverse.dropWhile is_ws).reverse

/-- Rust `str::rfind(pred)`: index of the last character satisfying `p`. -/
def rfind (p : Char → Bool) : Str → Option Nat
  | [] => none
  | c :: cs =>
    match rfind p cs with
    | some j => some (j + 1)
    | none => if p c then some 0 else none

/-- Rust's `format!("{s:0>width$}")`: left-pad with `c` up to `width`. -/
def pad_start (width : Nat) (c : Char) (s : Str) : Str :=
  List.replicate (width - s.length) c ++ s

/-- Byte-wise (here: code-point-wise) lexicographic strict order on strings,
as Rust's `str` ordering computes it. -/
def lex_lt : Str → Str → Bool
  | [], [] => false
  | [], _ :: _ => true
  | _ :: _, [] => false
  | a :: l1, b :: l2 =>
    if a.toNat < b.toNat then true
    else if b.toNat < a.toNat then false
    else lex_lt l1 l2

/-- Numeric value of a decimal digit character. -/
def digit_val (c : Char) : Nat := c.toNat - 48

/-- Numeric value of a string of decimal digits. -/
def digits_val (s : Str) : Nat := s.foldl (fun a c => a * 10 + digit_val c) 0

/-- The `Chapter` record of `src/models.rs` / `src/main.rs`: a relative URL
and a normalized title slug. -/
structure Chapter where
  url : Str
  title : Str
deriving DecidableEq, Repr

/-- An anchor element selected by `#chapters a`: its `href` and `title`
attributes (absent attributes are `none`). -/
structure Anchor where
  href : Option Str
  title : Option Str
deriving DecidableEq, Repr

/-- The per-anchor title normalization inside `fetch_chapters_urls`
(src/main.rs lines 123-136): trim, ASCII-lowercase, replace `'/'`,
split off the text after the last whitespace, zero-pad that token.
`none` models the `split_off` panic (`at` beyond the end of the string),
which happens exactly when the processed title is empty. -/
def normalize_title (t : Str) : Option Str :=
  let t1 := ((trim t).map to_ascii_lowercase).map replace_slash
  let pos := (rfind is_ws t1).getD 0
  if t1.length < pos + 1 then none
  else
    let pre := t1.take (pos + 1)
    let num := t1.drop (pos + 1)
    let width :=
      match rfind (fun c => c = '.') num with
      | some i => num.length - i + 4
      | none => 4
    some (pre ++ pad_start width '0' num)

/-- The body of the `map` in `fetch_chapters_urls` (src/main.rs lines
122-142): build a `Chapter` from one anchor; missing attributes default to
the empty string. `none` models a panic of `normalize_title`. -/
def anchor_chapter (a : Anchor) : Option Chapter :=
  (normalize_title (a.title.getD [])).map
    (fun t => { url := a.href.getD [], title := t })

/-- `fetch_chapters_urls` (src/main.rs lines 115-145), given the anchors the
selector `#chapters a` finds in DOM order: map each anchor to a `Chapter`,
then reverse. `none` models a panic while processing some anchor. -/
def fetch_chapters_urls (anchors : List Anchor) : Option (List Chapter) :=
  (anchors.mapM anchor_chapter).map List.reverse

example : normalize_title (str "Chapter 9") = some (str "chapter 0009") := by decide
example : normalize_title (str "Chapter 10.5") = some (str "chapter 0010.5") := by decide
example : normalize_title (str "") = none := by decide
example : lex_lt (str "chapter 0009") (str "chapter 0010") = true := by decide

/-- The error enum of `src/errors.rs`. -/
inductive ScraperErrors where
  | pageDownloadFailed (url : Str) (chapter_path : Str) (page_num : Nat)
  | invalidBookId (id : Nat)
  | invalidChapterSelection
deriving DecidableEq, Repr

/-- Contents of an `anyhow::Error` as far as the sources inspect it: either
a `ScraperErrors` value (the `downcast` succeeds) or some other error such
as a `std::io::Error` from `File::create`/`write_all` (the `downcast`
fails). -/
inductive AnyError where
  | scraper (e : ScraperErrors)
  | ioError
deriving DecidableEq, Repr

/-- Outcome of `client.get(url).send().await`: a transport error, or a
response carrying its HTTP status and the outcome of reading its body
(`.bytes()` / `.text()`).  Bytes are abstracted as `Str`. -/
inductive FetchOutcome where
  | transportError
  | response (status : Nat) (body : Except Unit Str)
deriving DecidableEq, Repr

/-- The `fetch_image` closure of `download_file`:
`client.get(url).send().await?.bytes().await`.  `reqwest` reports an error
for transport failures and body-read failures only; the HTTP status code is
not inspected. -/
def fetch_image (oc : FetchOutcome) : Except Unit Str :=
  match oc with
  | .transportError => .error ()
  | .response _status body => body

/-- `download_file` (src/main.rs lines 20-44 and src/bin/worker.rs lines
27-49; both bodies are identical apart from the progress bar): fetch the
image, write it to `chapter_path/{page_num:03}.jpg`.  A fetch failure
becomes `ScraperErrors::PageDownloadFailed`; a failure of the file
creation/write (modelled by `write_ok`) propagates as a non-scraper error
through `?`. -/
def download_file (fetch : Str → FetchOutcome) (write_ok : Nat → Bool)
    (url : Str) (chapter_path : Str) (page_num : Nat) : Except AnyError Unit :=
  match fetch_image (fetch url) with
  | .ok _data => if write_ok page_num then .ok () else .error .ioError
  | .error _ => .error (.scraper (.pageDownloadFailed url chapter_path page_num))

/-- An `img` element selected by `div>chapter-page img`: its `src` and
`data-src` attributes. -/
structure ImgElement where
  src : Option Str
  data_src : Option Str
deriving DecidableEq, Repr

/-- The extraction inside `fetch_image_urls`: per image, prefer `src`, fall
back to `data-src`, and skip (with a log line) elements that have neither. -/
def extract_image_urls (imgs : List ImgElement) : List Str :=
  imgs.filterMap (fun img => img.src.or img.data_src)

/-- `fetch_image_urls` (nested in `download_chapter`): fetch the chapter
landing page and extract the image URLs.  The landing-page outcome is the
list of `img` elements on success. -/
def fetch_image_urls (landing : Except Unit (List ImgElement)) :
    Except Unit (List Str) :=
  landing.map extract_image_urls

/-- The body of the `filter_map` at the end of `download_chapter`: the
`page_num` of a result that is an error downcasting to
`ScraperErrors::PageDownloadFailed`; successes and other errors (a failed
downcast) give `None`. -/
def failed_page_of (r : Except AnyError Unit) : Option Nat :=
  match r with
  | .error (.scraper (.pageDownloadFailed _ _ p)) => some p
  | _ => none

/-- The `filter_map` at the end of `download_chapter` over all per-page
results. -/
def failed_of_results (results : List (Except AnyError Unit)) : List Nat :=
  results.filterMap failed_page_of

/-- `download_chapter` (src/main.rs lines 46-101 and src/bin/worker.rs lines
51-105): extract the image URLs, run `download_file` over the enumerated
URLs with `buffer_unordered(6)`, and collect the failed page indices.
`sched` models the completion order of the bounded-concurrency scheduler: it
rearranges the enumerated pages, and the theorems below assume it is a
permutation. -/
def download_chapter (fetch : Str → FetchOutcome) (write_ok : Nat → Bool)
    (landing : Except Unit (List ImgElement)) (chapter_path : Str)
    (sched : List (Nat × Str) → List (Nat × Str)) : Except Unit (List Nat) :=
  match fetch_image_urls landing with
  | .error e => .error e
  | .ok image_urls =>
    let results := (sched image_urls.enum).map
      (fun p => download_file fetch write_ok p.2 chapter_path p.1)
    .ok (failed_of_results results)

/-- A message on `chapter_queue`, as the worker's `rkyv::from_bytes` sees
it: either bytes that deserialize as a `Chapter`, or the sentinel payload
(any bytes that do not deserialize as a `Chapter`). -/
inductive Msg where
  | job (c : Chapter)
  | sentinel
deriving DecidableEq, Repr

/-- `rkyv::from_bytes::<Chapter, _>` on a queue message. -/
def deserialize_chapter : Msg → Option Chapter
  | .job c => some c
  | .sentinel => none

/-- One delivery handed to the worker by `consumer.next()`: a message, or a
channel-level delivery error. -/
inductive Delivery where
  | ok (m : Msg)
  | err
deriving DecidableEq, Repr

/-- `PathBuf::join` on the ASCII paths the program builds. -/
def path_join (a b : Str) : Str := a ++ '/' :: b

/-- Everything observable about one run of the worker's receive loop plus
the trailing `basic_cancel` (src/bin/worker.rs lines 175-216). -/
structure WorkerTrace where
  /-- chapters passed to `download_chapter`, with the path used. -/
  downloads : List (Chapter × Str)
  /-- number of `delivery.ack` calls. -/
  acked : Nat
  /-- completion records published on `chapter_completed_queue`, in order. -/
  published : List Chapter
  /-- whether `basic_cancel("worker")` ran. -/
  cancelled : Bool
  /-- return value of the worker's `main` (`.error` models an early `?`). -/
  result : Except Unit Unit
deriving DecidableEq, Repr

/-- The worker's receive loop (src/bin/worker.rs lines 175-216).
`download` abstracts `download_chapter` for this worker's client: it
returns the failed-page list, or an error when the chapter landing page
cannot be fetched.  Note the `?` on the `download_chapter` call: a download
error aborts `main` before the `ack`, the publish and the `basic_cancel`. -/
def worker_loop (download : Chapter → Except Unit (List Nat))
    (manga_path : Str) : List Delivery → WorkerTrace
  | [] => { downloads := [], acked := 0, published := [], cancelled := true, result := .ok () }
  | .err :: _ => { downloads := [], acked := 0, published := [], cancelled := true, result := .ok () }
  | .ok .sentinel :: _ => { downloads := [], acked := 1, published := [], cancelled := true, result := .ok () }
  | .ok (.job c) :: rest =>
    let path := path_join manga_path c.title
    match download c with
    | .error _ =>
      { downloads := [(c, path)], acked := 0, published := [], cancelled := false, result := .error () }
    | .ok _failed_pages =>
      let t := worker_loop download manga_path rest
      { downloads := (c, path) :: t.downloads, acked := t.acked + 1,
        published := c :: t.published, cancelled := t.cancelled, result := t.result }

/-- The chapters of the maximal prefix of deliveries that are job messages:
exactly the jobs a healthy worker processes before it stops. -/
def leading_jobs : List Delivery → List Chapter
  | .ok (.job c) :: rest => c :: leading_jobs rest
  | _ => []

/-- The deliveries after the maximal job prefix. -/
def rest_deliveries : List Delivery → List Delivery
  | .ok (.job _) :: rest => rest_deliveries rest
  | ds => ds

/-- 1 iff the delivery ending the job prefix is a sentinel message (which
the worker acknowledges before exiting). -/
def sentinel_ack : List Delivery → Nat
  | .ok .sentinel :: _ => 1
  | _ => 0

/-- `args.threads.min(num_chapters)` (src/main.rs line 372). -/
def num_threads (threads num_chapters : Nat) : Nat := min threads num_chapters

/-- Modelled from the spec: the queue-publishing dispatcher of §4.6 ("publish
one job per selected chapter, then one sentinel per worker") is not under
src/ — only its worker-side consumer (src/bin/worker.rs) is.  The messages
it puts on `chapter_queue`. -/
def published_messages (chapters : List Chapter) (num_workers : Nat) : List Msg :=
  chapters.map Msg.job ++ List.replicate num_workers Msg.sentinel

/-- One `jobs.split_off(at)` call: `jobs` keeps the first `at` elements, the
split-off tail is returned.  (Callers below check Rust's panic condition
`at > len` themselves.) -/
def split_off (l : List α) (i : Nat) : List α × List α := (l.take i, l.drop i)

/-- The first loop of `split_jobs` (src/main.rs lines 153-156), iterated
`iters` times: split the last `chunk_size + 1` jobs off into a batch.
`none` models the panic of the underflowing `jobs.len() - (chunk_size + 1)`
(debug build; a release build panics inside `split_off` instead). -/
def split_jobs_go1 : Nat → List α → Nat → Option (List α × List (List α))
  | 0, jobs, _ => some (jobs, [])
  | iters + 1, jobs, chunk_size =>
    if chunk_size + 1 ≤ jobs.length then
      let p := split_off jobs (jobs.length - (chunk_size + 1))
      (split_jobs_go1 iters p.1 chunk_size).map (fun q => (q.1, p.2 :: q.2))
    else none

/-- The `while !jobs.is_empty()` loop of `split_jobs` (src/main.rs lines
157-159): split the last `chunk_size` jobs off (`saturating_sub`, exactly
Nat subtraction) until empty.  `fuel` bounds the iterations; the loop in the
source diverges in the (unreachable) case `chunk_size = 0` with jobs left,
which `none` models here. -/
def split_jobs_go2 : Nat → List α → Nat → Option (List α × List (List α))
  | _, [], _ => some ([], [])
  | 0, _ :: _, _ => none
  | fuel + 1, j :: js, chunk_size =>
    let jobs := j :: js
    let p := split_off jobs (jobs.length - chunk_size)
    (split_jobs_go2 fuel p.1 chunk_size).map (fun q => (q.1, p.2 :: q.2))

/-- `split_jobs` (src/main.rs lines 147-162).  Returns the batches together
with what is left in the (mutated) input vector; `none` models a panic or
divergence (`num_batches = 0` divides by zero and panics). -/
def split_jobs (jobs : List α) (num_batches : Nat) :
    Option (List (List α) × List α) :=
  if num_batches = 0 then none
  else
    let n := jobs.length
    let chunk_size := n / num_batches
    match split_jobs_go1 (n % num_batches) jobs chunk_size with
    | none => none
    | some (jobs1, batches1) =>
      match split_jobs_go2 jobs1.length jobs1 chunk_size with
      | none => none
      | some (jobs2, batches2) => some (batches1 ++ batches2, jobs2)

example : split_jobs [1, 2, 3, 4, 5] 2 = some ([[3, 4, 5], [1, 2]], []) := by decide
example : split_jobs [1, 2, 3, 4, 5, 6] 3 = some ([[5, 6], [3, 4], [1, 2]], []) := by decide
example : split_jobs ([] : List Nat) 0 = none := by decide

/-- `usize::from_str` (64-bit target): an optional leading `'+'`, then at
least one ASCII digit, and the value must fit in `usize`. -/
def parse_usize (s : Str) : Option Nat :=
  let digits := match s with
    | '+' :: rest => rest
    | _ => s
  if digits ≠ [] && digits.all is_digit then
    let v := digits_val digits
    if v ≤ 2 ^ 64 - 1 then some v else none
  else none

example : parse_usize (str "123") = some 123 := by decide
example : parse_usize (str "+7") = some 7 := by decide
example : parse_usize (str "one-piece") = none := by decide
example : parse_usize (str "") = none := by decide

/-- The resolved canonical URL of `{HOST_URL}/manga/{id}` after redirects,
as far as `get_title_from_id` inspects it: its path segments
(`Url::path_segments` returns `None` for cannot-be-a-base URLs). -/
structure ResolvedUrl where
  path_segments : Option (List Str)
deriving DecidableEq, Repr

/-- `get_title_from_id` (src/main.rs lines 164-178): take the trailing path
segment of the resolved URL; if it parses as a `usize` the id was invalid,
otherwise it is the title.  The outer `none` models the
`segments.next_back().unwrap()` panic on an empty segment iterator. -/
def get_title_from_id (id : Nat) (resolved : ResolvedUrl) :
    Option (Except ScraperErrors (Str × ResolvedUrl)) :=
  match resolved.path_segments with
  | some segments =>
    match segments.getLast? with
    | none => none
    | some title =>
      if (parse_usize title).isSome then some (.error (.invalidBookId id))
      else some (.ok (title, resolved))
  | none => some (.error (.invalidBookId id))

example :
    get_title_from_id 4 ⟨some [str "manga", str "4"]⟩ =
      some (.error (.invalidBookId 4)) := by decide
example :
    get_title_from_id 4 ⟨some [str "manga", str "one-piece"]⟩ =
      some (.ok (str "one-piece", ⟨some [str "manga", str "one-piece"]⟩)) := by decide

/-- `get_manga_display_name` (src/main.rs lines 180-193): fetch the title
page and take the text of the first `h1` heading; `Ok none` when the page
has no heading, `Err` when the fetch fails.  The page is abstracted as the
list of its `h1` texts. -/
def get_manga_display_name (page : Except Unit (List Str)) :
    Except Unit (Option Str) :=
  match page with
  | .error e => .error e
  | .ok h1_texts => .ok h1_texts.head?

/-- The dispatcher's use of the display name (src/main.rs lines 319-322):
`get_manga_display_name(..).unwrap_or_else(|_| Some(title.clone())).unwrap()`.
`none` models the final `unwrap` panicking. -/
def display_title (r : Except Unit (Option Str)) (title : Str) : Option Str :=
  match r with
  | .error _ => some title
  | .ok v => v

example : display_title (.error ()) (str "one-piece") = some (str "one-piece") := by decide
example : display_title (.ok (some (str "One Piece"))) (str "one-piece") = some (str "One Piece") := by decide
example : display_title (.ok none) (str "one-piece") = none := by decide

/-! ## Claim C3: an anchor without a title attribute -/

/-- C3: the claim says an anchor missing its `title` attribute yields the
empty string and still produces a valid `Chapter` without failing.  The
code does treat the missing attribute as the empty string
(`unwrap_or_default`), but then `title.split_off(chapter_num_pos + 1)`
is `"".split_off(1)`, which panics (`at` is past the end of the string):
the per-anchor mapping is not total.  This theorem evaluates the embedded
code at the failing input. -/
theorem fetch_chapters_urls_missing_title_panics :
    normalize_title (str "") = none ∧
    anchor_chapter { href := some (str "/chapters/1-10001000/one-piece-chapter-1"), title := none } = none ∧
    fetch_chapters_urls
      [{ href := some (str "/chapters/1-10001000/one-piece-chapter-1"), title := none }] = none := by
  decide

/-! ## Claim C8: best-effort display name -/

/-- C8: the claim says every non-success outcome of
`get_manga_display_name` (fetch failure as well as a page with no heading)
makes the dispatcher fall back to the raw id-derived title.  The code falls
back only on the `Err` outcome; on `Ok(None)` — a page that fetches fine
but has no `h1` — the final `.unwrap()` in src/main.rs line 322 panics.
This theorem evaluates the embedded code at both outcomes. -/
theorem display_title_missing_heading_panics :
    display_title (get_manga_display_name (.error ())) (str "one-piece") = some (str "one-piece") ∧
    display_title (get_manga_display_name (.ok [])) (str "one-piece") = none := by
  decide

/-! ## Claim C4: page-fetch error collapsing -/

/-- C4, counterexample: a non-2xx response whose body is readable does NOT
produce `PageDownloadFailed` — `reqwest` does not inspect the status, so
`download_file` writes the error page and returns `Ok`. -/
theorem download_file_non_2xx_returns_ok :
    download_file (fun _ => .response 404 (.ok (str "<html>not found</html>")))
        (fun _ => true) (str "https://cdn.example/img1.jpg") (str "tmp/one-piece/chapter 0001") 0 =
      .ok () ∧
    (404 < 200 ∨ 300 ≤ 404) := by
  constructor
  · decide
  · omega

/-- C4 (amended): `download_file` returns the single error kind
`PageDownloadFailed{url, chapter_path, page_num}` exactly when the fetch
itself fails (transport error or body-read error; the HTTP status is not
inspected), and returns `Ok` exactly when the fetch yields a body and the
file write succeeds. -/
theorem download_file_error_kind (fetch : Str → FetchOutcome) (write_ok : Nat → Bool)
    (url chapter_path : Str) (page_num : Nat) :
    (download_file fetch write_ok url chapter_path page_num =
        .error (.scraper (.pageDownloadFailed url chapter_path page_num)) ↔
      (fetch_image (fetch url)).isOk = false) ∧
    (download_file fetch write_ok url chapter_path page_num = .ok () ↔
      ((fetch_image (fetch url)).isOk = true ∧ write_ok page_num = true)) := by
  unfold download_file
  cases h : fetch_image (fetch url) with
  | ok data => cases hw : write_ok page_num <;> simp [Except.isOk, Except.toBool]
  | error e => simp [Except.isOk, Except.toBool]

/-! ## Claim C7: title resolution from a numeric id -/

/-- C7: `get_title_from_id` returns `InvalidBookId` exactly when the
trailing path segment of the resolved URL parses as a `usize`, and
otherwise returns that segment together with the resolved URL. -/
theorem get_title_from_id_spec (id : Nat) (segments : List Str) (h : segments ≠ []) :
    get_title_from_id id ⟨some segments⟩ =
      some (if (parse_usize (segments.getLast h)).isSome then
          .error (.invalidBookId id)
        else
          .ok (segments.getLast h, ⟨some segments⟩)) := by
  have h' : segments.getLast? = some (segments.getLast h) :=
    List.getLast?_eq_getLast segments h
  simp [get_title_from_id, h']
  split <;> rfl

/-- Witness for C7 at concrete inputs: a slug segment is returned as the
title, and a purely numeric segment is rejected. -/
theorem get_title_from_id_spec_witness :
    get_title_from_id 100 ⟨some [str "manga", str "one-piece"]⟩ =
      some (.ok (str "one-piece", ⟨some [str "manga", str "one-piece"]⟩)) ∧
    get_title_from_id 99999 ⟨some [str "manga", str "99999"]⟩ =
      some (.error (.invalidBookId 99999)) := by
  constructor
  · rw [get_title_from_id_spec 100 [str "manga", str "one-piece"] (by decide)]
    decide
  · rw [get_title_from_id_spec 99999 [str "manga", str "99999"] (by decide)]
    decide

/-! ## Claims C1 and C10: download_chapter failure collection -/

/-- What `failed_page_of` sees on a `download_file` result: a page index is
kept exactly when the fetch of its URL failed (write failures downcast to
`PageDownloadFailed` unsuccessfully and are dropped). -/
theorem failed_page_of_download_file (fetch : Str → FetchOutcome) (write_ok : Nat → Bool)
    (url chapter_path : Str) (page_num : Nat) :
    failed_page_of (download_file fetch write_ok url chapter_path page_num) =
      if (fetch_image (fetch url)).isOk then none else some page_num := by
  unfold download_file failed_page_of
  cases h : fetch_image (fetch url) with
  | ok data => cases write_ok page_num <;> simp [Except.isOk, Except.toBool]
  | error e => simp [Except.isOk, Except.toBool]

/-- A `filterMap` that only ever keeps (an image of) the element itself is a
sublist of the corresponding `map`. -/
theorem filterMap_sublist_map {α β : Type} (f : α → Option β) (g : α → β)
    (l : List α) (h : ∀ a ∈ l, f a = none ∨ f a = some (g a)) :
    List.Sublist (l.filterMap f) (l.map g) := by
  induction l with
  | nil => simp
  | cons a t ih =>
    have ht : ∀ x ∈ t, f x = none ∨ f x = some (g x) := fun x hx => h x (List.mem_cons_of_mem a hx)
    rcases h a (List.mem_cons_self a t) with ha | ha
    · rw [List.filterMap_cons, ha, List.map_cons]
      exact (ih ht).cons (g a)
    · rw [List.filterMap_cons, ha, List.map_cons]
      exact (ih ht).cons₂ (g a)

/-- C1: when the page-list extraction of a chapter landing page yields `k`
image URLs of which `f` fail to fetch, `download_chapter` returns `Ok` and
the failed-index list has length exactly `f`: page failures neither abort
siblings (every enumerated page is attempted) nor the chapter call. -/
theorem download_chapter_failed_count (fetch : Str → FetchOutcome) (write_ok : Nat → Bool)
    (imgs : List ImgElement) (chapter_path : Str)
    (sched : List (Nat × Str) → List (Nat × Str))
    (hs : (sched (extract_image_urls imgs).enum).Perm (extract_image_urls imgs).enum) :
    ∃ failed_pages,
      download_chapter fetch write_ok (.ok imgs) chapter_path sched = .ok failed_pages ∧
      failed_pages.length =
        (extract_image_urls imgs).countP (fun u => !(fetch_image (fetch u)).isOk) := by
  refine ⟨_, rfl, ?_⟩
  rw [failed_of_results, List.length_filterMap_eq_countP, List.countP_map]
  have hfun : ((fun r => (failed_page_of r).isSome) ∘
        fun p : Nat × Str => download_file fetch write_ok p.2 chapter_path p.1) =
      (fun p : Nat × Str => !(fetch_image (fetch p.2)).isOk) := by
    funext p
    simp only [Function.comp, failed_page_of_download_file]
    cases (fetch_image (fetch p.2)).isOk <;> simp
  rw [hfun, hs.countP_eq]
  have hsnd : (fun p : Nat × Str => !(fetch_image (fetch p.2)).isOk) =
      (fun u : Str => !(fetch_image (fetch u)).isOk) ∘ Prod.snd := rfl
  rw [hsnd, ← List.countP_map, List.enum_map_snd]

/-- Witness for C1: two extracted URLs, the first of which fails. -/
theorem download_chapter_failed_count_witness :
    ∃ failed_pages,
      download_chapter
          (fun u => if u = str "bad" then .transportError else .response 200 (.ok []))
          (fun _ => true)
          (.ok [{ src := some (str "bad"), data_src := none },
                { src := none, data_src := some (str "good") }])
          (str "tmp/one-piece/chapter 0001") id = .ok failed_pages ∧
      failed_pages.length =
        (extract_image_urls
            [{ src := some (str "bad"), data_src := none },
             { src := none, data_src := some (str "good") }]).countP
          (fun u => !(fetch_image
            ((fun u => if u = str "bad" then .transportError else .response 200 (.ok [])) u)).isOk) := by
  exact download_chapter_failed_count _ _ _ _ id (List.Perm.refl _)

/-- C10: every index in the failed-page list is a valid page index (below
the number of extracted URLs) and the indices are pairwise distinct. -/
theorem download_chapter_failed_indices (fetch : Str → FetchOutcome) (write_ok : Nat → Bool)
    (imgs : List ImgElement) (chapter_path : Str)
    (sched : List (Nat × Str) → List (Nat × Str))
    (hs : (sched (extract_image_urls imgs).enum).Perm (extract_image_urls imgs).enum) :
    ∃ failed_pages,
      download_chapter fetch write_ok (.ok imgs) chapter_path sched = .ok failed_pages ∧
      failed_pages.Nodup ∧
      ∀ i ∈ failed_pages, i < (extract_image_urls imgs).length := by
  refine ⟨_, rfl, ?_⟩
  rw [failed_of_results, List.filterMap_map]
  have hsub : List.Sublist
      ((sched (extract_image_urls imgs).enum).filterMap
        (failed_page_of ∘ fun p => download_file fetch write_ok p.2 chapter_path p.1))
      ((sched (extract_image_urls imgs).enum).map Prod.fst) := by
    refine filterMap_sublist_map _ _ _ (fun p _ => ?_)
    simp only [Function.comp, failed_page_of_download_file]
    cases (fetch_image (fetch p.2)).isOk <;> simp
  have hperm : ((sched (extract_image_urls imgs).enum).map Prod.fst).Perm
      (List.range (extract_image_urls imgs).length) := by
    have := hs.map Prod.fst
    rwa [List.enum_map_fst] at this
  constructor
  · exact hsub.nodup (hperm.symm.nodup (List.nodup_range _))
  · intro i hi
    have hi2 := hsub.subset hi
    have hi3 := hperm.subset hi2
    exact List.mem_range.mp hi3

/-- Witness for C10 at the same concrete chapter as the C1 witness. -/
theorem download_chapter_failed_indices_witness :
    ∃ failed_pages,
      download_chapter
          (fun u => if u = str "bad" then .transportError else .response 200 (.ok []))
          (fun _ => true)
          (.ok [{ src := some (str "bad"), data_src := none },
                { src := none, data_src := some (str "good") }])
          (str "tmp/one-piece/chapter 0002") id = .ok failed_pages ∧
      failed_pages.Nodup ∧
      ∀ i ∈ failed_pages,
        i < (extract_image_urls
          [{ src := some (str "bad"), data_src := none },
           { src := none, data_src := some (str "good") }]).length := by
  exact download_chapter_failed_indices _ _ _ _ id (List.Perm.refl _)

/-! ## Claim C5: the worker's receive loop -/

/-- C5, counterexample: the claim says a message deserializing as a
`Chapter` is always acknowledged and followed by a completion record.  But
`download_chapter(..).await?` in src/bin/worker.rs line 188 aborts the
worker when the chapter download itself errors (landing-page fetch
failure): no ack, no completion record, no `basic_cancel`, and `main`
returns the error. -/
theorem worker_loop_download_error_aborts :
    worker_loop (fun _ => .error ()) (str "tmp/one-piece")
        [.ok (.job { url := str "/chapters/1", title := str "chapter 0001" })] =
      { downloads := [({ url := str "/chapters/1", title := str "chapter 0001" },
          path_join (str "tmp/one-piece") (str "chapter 0001"))],
        acked := 0, published := [], cancelled := false, result := .error () } := by
  decide

/-- C5 (amended): provided every `download_chapter` call returns (possibly
with failed pages) rather than erroring, the worker processes the maximal
prefix of job deliveries: it runs the downloader on each chapter against
`destination/chapter.title`, acknowledges each, publishes a completion
record built from the same chapter (regardless of which pages failed), and
on the terminating delivery — a sentinel is additionally acknowledged —
cancels its consumer registration and terminates normally. -/
theorem worker_loop_spec (download : Chapter → Except Unit (List Nat))
    (manga_path : Str) (deliveries : List Delivery)
    (h : ∀ c, (download c).isOk = true) :
    worker_loop download manga_path deliveries =
      { downloads := (leading_jobs deliveries).map (fun c => (c, path_join manga_path c.title)),
        acked := (leading_jobs deliveries).length + sentinel_ack (rest_deliveries deliveries),
        published := leading_jobs deliveries,
        cancelled := true,
        result := .ok () } := by
  induction deliveries with
  | nil => simp [worker_loop, leading_jobs, rest_deliveries, sentinel_ack]
  | cons d rest ih =>
    match d with
    | .err => simp [worker_loop, leading_jobs, rest_deliveries, sentinel_ack]
    | .ok .sentinel => simp [worker_loop, leading_jobs, rest_deliveries, sentinel_ack]
    | .ok (.job c) =>
      have hc := h c
      cases hdc : download c with
      | error e => rw [hdc] at hc; simp [Except.isOk, Except.toBool] at hc
      | ok fp =>
        simp only [worker_loop, hdc, ih, leading_jobs, rest_deliveries,
          List.map_cons, List.length_cons, WorkerTrace.mk.injEq, and_true, true_and]
        omega

/-- Witness for C5: one job delivery followed by a sentinel, with a
downloader that always returns (no failed pages). -/
theorem worker_loop_spec_witness :
    worker_loop (fun _ => .ok []) (str "tmp/one-piece")
        [.ok (.job { url := str "/chapters/1", title := str "chapter 0001" }), .ok .sentinel] =
      { downloads := [({ url := str "/chapters/1", title := str "chapter 0001" },
          str "tmp/one-piece/chapter 0001")],
        acked := 2,
        published := [{ url := str "/chapters/1", title := str "chapter 0001" }],
        cancelled := true,
        result := .ok () } := by
  rw [worker_loop_spec (fun _ => .ok []) (str "tmp/one-piece") _ (fun _ => rfl)]
  decide

/-! ## Claims C6 and C9: job splitting and dispatch counts -/

/-- The first loop of `split_jobs`, specified: with enough jobs for all its
iterations it produces `iters` batches of `chunk_size + 1` jobs each, taken
from the tail of the input. -/
theorem split_jobs_go1_spec {α : Type} (iters : Nat) (jobs : List α) (chunk_size : Nat)
    (h : iters * (chunk_size + 1) ≤ jobs.length) :
    ∃ jobs1 batches, split_jobs_go1 iters jobs chunk_size = some (jobs1, batches) ∧
      jobs1.length = jobs.length - iters * (chunk_size + 1) ∧
      batches.length = iters ∧
      (∀ b ∈ batches, b.length = chunk_size + 1) ∧
      jobs1 ++ batches.reverse.flatten = jobs := by
  induction iters generalizing jobs with
  | zero => exact ⟨jobs, [], rfl, by simp, rfl, by simp, by simp⟩
  | succ iters ih =>
    have hmul : (iters + 1) * (chunk_size + 1) =
        iters * (chunk_size + 1) + (chunk_size + 1) := by ring
    rw [hmul] at h
    have hle : chunk_size + 1 ≤ jobs.length := by omega
    have htk : (jobs.take (jobs.length - (chunk_size + 1))).length =
        jobs.length - (chunk_size + 1) := by
      rw [List.length_take]
      exact Nat.min_eq_left (Nat.sub_le _ _)
    have hrec : iters * (chunk_size + 1) ≤
        (jobs.take (jobs.length - (chunk_size + 1))).length := by
      rw [htk]; omega
    obtain ⟨jobs1, bs, heq, hlen1, hlenb, hsz, hcat⟩ := ih _ hrec
    refine ⟨jobs1, jobs.drop (jobs.length - (chunk_size + 1)) :: bs, ?_, ?_, ?_, ?_, ?_⟩
    · simp only [split_jobs_go1, if_pos hle, split_off]
      rw [heq]
      rfl
    · rw [hlen1, htk, hmul]
      omega
    · simp [hlenb]
    · intro b hb
      rcases List.mem_cons.mp hb with hb | hb
      · subst hb
        rw [List.length_drop]
        omega
      · exact hsz b hb
    · rw [List.reverse_cons, List.flatten_append, ← List.append_assoc, hcat]
      simp

/-- The `while` loop of `split_jobs`, specified: when the chunk size is
positive and divides the number of remaining jobs, it consumes all jobs
into equally sized batches. -/
theorem split_jobs_go2_spec {α : Type} (fuel : Nat) (jobs : List α) (chunk_size : Nat)
    (hch : 1 ≤ chunk_size) (hdvd : chunk_size ∣ jobs.length) (hfuel : jobs.length ≤ fuel) :
    ∃ batches, split_jobs_go2 fuel jobs chunk_size = some ([], batches) ∧
      batches.length = jobs.length / chunk_size ∧
      (∀ b ∈ batches, b.length = chunk_size) ∧
      batches.reverse.flatten = jobs := by
  induction fuel generalizing jobs with
  | zero =>
    have hnil : jobs = [] := List.eq_nil_of_length_eq_zero (Nat.le_zero.mp hfuel)
    subst hnil
    exact ⟨[], rfl, by simp, by simp, rfl⟩
  | succ fuel ih =>
    cases jobs with
    | nil => exact ⟨[], rfl, by simp, by simp, rfl⟩
    | cons j js =>
      have hpos : 0 < (j :: js).length := by simp
      have hge : chunk_size ≤ (j :: js).length := Nat.le_of_dvd hpos hdvd
      have htk : ((j :: js).take ((j :: js).length - chunk_size)).length =
          (j :: js).length - chunk_size := by
        rw [List.length_take]
        exact Nat.min_eq_left (Nat.sub_le _ _)
      have hdvd' : chunk_size ∣ ((j :: js).take ((j :: js).length - chunk_size)).length := by
        rw [htk]
        exact Nat.dvd_sub' hdvd dvd_rfl
      have hfuel' : ((j :: js).take ((j :: js).length - chunk_size)).length ≤ fuel := by
        rw [htk]
        have := List.length_cons j js
        omega
      obtain ⟨bs, heq, hlenb, hsz, hcat⟩ := ih _ hdvd' hfuel'
      refine ⟨(j :: js).drop ((j :: js).length - chunk_size) :: bs, ?_, ?_, ?_, ?_⟩
      · simp only [split_jobs_go2, split_off]
        rw [heq]
        rfl
      · obtain ⟨m, hm⟩ := hdvd
        have hm1 : 1 ≤ m := by
          rcases Nat.eq_zero_or_pos m with h0 | h1
          · rw [h0, Nat.mul_zero] at hm
            omega
          · exact h1
        have hsub : chunk_size * m - chunk_size = chunk_size * (m - 1) :=
          (Nat.mul_sub_one chunk_size m).symm
        rw [List.length_cons, hlenb, htk, hm, hsub,
          Nat.mul_div_cancel_left _ (by omega : 0 < chunk_size),
          Nat.mul_div_cancel_left _ (by omega : 0 < chunk_size)]
        omega
      · intro b hb
        rcases List.mem_cons.mp hb with hb | hb
        · subst hb
          rw [List.length_drop]
          omega
        · exact hsz b hb
      · rw [List.reverse_cons, List.flatten_append, hcat]
        simp

/-- `split_jobs`, specified (shared by the C6 and C9 claims): for
`1 ≤ num_batches ≤ jobs.length` it succeeds with exactly `num_batches`
batches whose reversed concatenation is the input (so every job lands in
exactly one batch), each of size `n / num_batches` or `n / num_batches + 1`,
and the input vector is left empty. -/
theorem split_jobs_spec {α : Type} (jobs : List α) (num_batches : Nat)
    (h1 : 1 ≤ num_batches) (h2 : num_batches ≤ jobs.length) :
    ∃ batches, split_jobs jobs num_batches = some (batches, []) ∧
      batches.length = num_batches ∧
      batches.reverse.flatten = jobs ∧
      ∀ b ∈ batches, b.length = jobs.length / num_batches ∨
        b.length = jobs.length / num_batches + 1 := by
  have hb0 : ¬ num_batches = 0 := by omega
  have hqpos : 1 ≤ jobs.length / num_batches := (Nat.one_le_div_iff (by omega)).mpr h2
  have hrlt : jobs.length % num_batches < num_batches := Nat.mod_lt _ (by omega)
  have hdm : num_batches * (jobs.length / num_batches) + jobs.length % num_batches =
      jobs.length := Nat.div_add_mod jobs.length num_batches
  have e3 : jobs.length % num_batches * (jobs.length / num_batches + 1) =
      jobs.length % num_batches * (jobs.length / num_batches) +
        jobs.length % num_batches := by ring
  have e2 : jobs.length % num_batches * (jobs.length / num_batches) ≤
      num_batches * (jobs.length / num_batches) :=
    Nat.mul_le_mul_right _ (le_of_lt hrlt)
  have hpre1 : jobs.length % num_batches * (jobs.length / num_batches + 1) ≤
      jobs.length := by omega
  obtain ⟨jobs1, bs1, heq1, hlen1, hlenb1, hsz1, hcat1⟩ :=
    split_jobs_go1_spec (jobs.length % num_batches) jobs (jobs.length / num_batches) hpre1
  have e4 : num_batches * (jobs.length / num_batches) =
      (jobs.length % num_batches + (num_batches - jobs.length % num_batches)) *
        (jobs.length / num_batches) := by
    rw [Nat.add_sub_cancel' (le_of_lt hrlt)]
  have e5 : (jobs.length % num_batches + (num_batches - jobs.length % num_batches)) *
        (jobs.length / num_batches) =
      jobs.length % num_batches * (jobs.length / num_batches) +
        (num_batches - jobs.length % num_batches) * (jobs.length / num_batches) := by ring
  have hlen1' : jobs1.length =
      (num_batches - jobs.length % num_batches) * (jobs.length / num_batches) := by omega
  have hdvd : (jobs.length / num_batches) ∣ jobs1.length := by
    rw [hlen1']
    exact ⟨_, by ring⟩
  obtain ⟨bs2, heq2, hlenb2, hsz2, hcat2⟩ :=
    split_jobs_go2_spec jobs1.length jobs1 (jobs.length / num_batches) hqpos hdvd (le_refl _)
  have hlenb2' : bs2.length = num_batches - jobs.length % num_batches := by
    rw [hlenb2, hlen1']
    exact Nat.mul_div_cancel _ (by omega)
  refine ⟨bs1 ++ bs2, ?_, ?_, ?_, ?_⟩
  · unfold split_jobs
    rw [if_neg hb0]
    simp only [heq1, heq2]
  · rw [List.length_append, hlenb1, hlenb2']
    omega
  · rw [List.reverse_append, List.flatten_append, hcat2]
    exact hcat1
  · intro b hb
    rcases List.mem_append.mp hb with hb | hb
    · exact Or.inr (hsz1 b hb)
    · exact Or.inl (hsz2 b hb)

/-- C9: for `1 ≤ b ≤ n`, `split_jobs` returns exactly `b` batches that
partition the input (the reversed concatenation of the batches is the input
vector, so every element lands in exactly one batch), each of size
`floor(n/b)` or `ceil(n/b)`, and leaves the input vector empty; for
`b = 0` the function is undefined (division by zero panics). -/
theorem split_jobs_partitions {α : Type} (jobs : List α) (num_batches : Nat)
    (h1 : 1 ≤ num_batches) (h2 : num_batches ≤ jobs.length) :
    split_jobs jobs 0 = none ∧
    ∃ batches, split_jobs jobs num_batches = some (batches, []) ∧
      batches.length = num_batches ∧
      batches.reverse.flatten = jobs ∧
      ∀ b ∈ batches, b.length = jobs.length / num_batches ∨
        b.length = jobs.length / num_batches + 1 := by
  exact ⟨rfl, split_jobs_spec jobs num_batches h1 h2⟩

/-- Witness for C9: five jobs into two batches of sizes 3 and 2. -/
theorem split_jobs_partitions_witness :
    split_jobs [1, 2, 3, 4, 5] 0 = none ∧
    ∃ batches, split_jobs [1, 2, 3, 4, 5] 2 = some (batches, []) ∧
      batches.length = 2 ∧
      batches.reverse.flatten = [1, 2, 3, 4, 5] ∧
      ∀ b ∈ batches, b.length = [1, 2, 3, 4, 5].length / 2 ∨
        b.length = [1, 2, 3, 4, 5].length / 2 + 1 := by
  exact split_jobs_partitions [1, 2, 3, 4, 5] 2 (by omega) (by simp)

/-- Sentinel messages never deserialize as chapters. -/
theorem filterMap_deserialize_sentinel (w : Nat) :
    (List.replicate w Msg.sentinel).filterMap deserialize_chapter = [] := by
  induction w with
  | zero => rfl
  | succ w ih => simp [List.replicate_succ, List.filterMap_cons, deserialize_chapter, ih]

/-- C6: for `1 ≤ w ≤ c` selected chapters, the dispatcher starts exactly
`min(w, c) = w` workers (in src/main.rs: `split_jobs` produces exactly
`min(w, c)` batches, one spawned task each), and — per the spec-modelled
queue dispatcher — exactly `c` chapter jobs plus exactly `w` sentinels are
published, with every selected chapter dispatched exactly once. -/
theorem dispatcher_dispatch_counts (chapters : List Chapter) (w : Nat)
    (h1 : 1 ≤ w) (h2 : w ≤ chapters.length) :
    num_threads w chapters.length = w ∧
    (published_messages chapters w).countP (fun m => (deserialize_chapter m).isSome) =
      chapters.length ∧
    (published_messages chapters w).countP (fun m => !(deserialize_chapter m).isSome) = w ∧
    (published_messages chapters w).filterMap deserialize_chapter = chapters ∧
    ∃ batches, split_jobs chapters (num_threads w chapters.length) = some (batches, []) ∧
      batches.length = w := by
  have hmin : num_threads w chapters.length = w := Nat.min_eq_left h2
  refine ⟨hmin, ?_, ?_, ?_, ?_⟩
  · simp [published_messages, deserialize_chapter, List.countP_append, List.countP_map,
      Function.comp, List.countP_replicate]
  · simp [published_messages, deserialize_chapter, List.countP_append, List.countP_map,
      Function.comp, List.countP_replicate]
  · rw [published_messages, List.filterMap_append, filterMap_deserialize_sentinel,
      List.filterMap_map]
    have hcomp : (deserialize_chapter ∘ Msg.job) = some := funext (fun c => rfl)
    rw [hcomp, List.filterMap_some, List.append_nil]
  · rw [hmin]
    obtain ⟨batches, heq, hlen, -, -⟩ := split_jobs_spec chapters w h1 h2
    exact ⟨batches, heq, hlen⟩

/-- Witness for C6: three chapters, two workers. -/
theorem dispatcher_dispatch_counts_witness :
    num_threads 2 ([⟨str "/c/1", str "chapter 0001"⟩,
        ⟨str "/c/2", str "chapter 0002"⟩,
        ⟨str "/c/3", str "chapter 0003"⟩] : List Chapter).length = 2 ∧
    (published_messages ([⟨str "/c/1", str "chapter 0001"⟩,
        ⟨str "/c/2", str "chapter 0002"⟩,
        ⟨str "/c/3", str "chapter 0003"⟩] : List Chapter) 2).countP
      (fun m => (deserialize_chapter m).isSome) =
      ([⟨str "/c/1", str "chapter 0001"⟩,
        ⟨str "/c/2", str "chapter 0002"⟩,
        ⟨str "/c/3", str "chapter 0003"⟩] : List Chapter).length ∧
    (published_messages ([⟨str "/c/1", str "chapter 0001"⟩,
        ⟨str "/c/2", str "chapter 0002"⟩,
        ⟨str "/c/3", str "chapter 0003"⟩] : List Chapter) 2).countP
      (fun m => !(deserialize_chapter m).isSome) = 2 ∧
    (published_messages ([⟨str "/c/1", str "chapter 0001"⟩,
        ⟨str "/c/2", str "chapter 0002"⟩,
        ⟨str "/c/3", str "chapter 0003"⟩] : List Chapter) 2).filterMap deserialize_chapter =
      ([⟨str "/c/1", str "chapter 0001"⟩,
        ⟨str "/c/2", str "chapter 0002"⟩,
        ⟨str "/c/3", str "chapter 0003"⟩] : List Chapter) ∧
    ∃ batches,
      split_jobs ([⟨str "/c/1", str "chapter 0001"⟩,
          ⟨str "/c/2", str "chapter 0002"⟩,
          ⟨str "/c/3", str "chapter 0003"⟩] : List Chapter)
        (num_threads 2 ([⟨str "/c/1", str "chapter 0001"⟩,
          ⟨str "/c/2", str "chapter 0002"⟩,
          ⟨str "/c/3", str "chapter 0003"⟩] : List Chapter).length) =
        some (batches, []) ∧
      batches.length = 2 := by
  exact dispatcher_dispatch_counts
    ([⟨str "/c/1", str "chapter 0001"⟩,
      ⟨str "/c/2", str "chapter 0002"⟩,
      ⟨str "/c/3", str "chapter 0003"⟩] : List Chapter) 2 (by omega) (by simp)

/-! ## Claim C2: chapter ordering and title normalization -/

/-- C2, counterexample: the zero-padding width is fixed at 4, so a 5-digit
chapter number breaks the claimed agreement between numeric order and
lexicographic order of the produced titles.  With DOM order newest first,
the output is reversed (oldest first), but "chapter 10000" sorts
lexicographically before "chapter 9999" while 9999 < 10000. -/
theorem fetch_chapters_order_counterexample :
    fetch_chapters_urls
        [{ href := some (str "/chapters/10000"), title := some (str "Chapter 10000") },
         { href := some (str "/chapters/9999"), title := some (str "Chapter 9999") }] =
      some [{ url := str "/chapters/9999", title := str "chapter 9999" },
            { url := str "/chapters/10000", title := str "chapter 10000" }] ∧
    digits_val (str "9999") < digits_val (str "10000") ∧
    lex_lt (str "chapter 10000") (str "chapter 9999") = true ∧
    lex_lt (str "chapter 9999") (str "chapter 10000") = false := by
  refine ⟨by decide, by decide, by decide, by decide⟩

/-- A decimal digit is unchanged by `to_ascii_lowercase`. -/
theorem to_ascii_lowercase_digit {c : Char} (h : is_digit c = true) :
    to_ascii_lowercase c = c := by
  unfold to_ascii_lowercase
  rw [if_neg]
  intro hc
  simp only [is_digit, Bool.and_eq_true, decide_eq_true_eq] at h hc
  omega

/-- A decimal digit is unchanged by `replace_slash`. -/
theorem replace_slash_digit {c : Char} (h : is_digit c = true) :
    replace_slash c = c := by
  unfold replace_slash
  rw [if_neg]
  intro hc
  subst hc
  exact absurd h (by decide)

/-- A decimal digit is not whitespace. -/
theorem is_ws_digit {c : Char} (h : is_digit c = true) : is_ws c = false := by
  simp only [is_digit, Bool.and_eq_true, decide_eq_true_eq] at h
  simp only [is_ws, Bool.or_eq_false_iff, Bool.and_eq_false_iff]
  constructor
  · simp only [decide_eq_false_iff_not]
    omega
  · right
    simp only [decide_eq_false_iff_not]
    omega

/-- A decimal digit is not `'.'`. -/
theorem digit_ne_dot {c : Char} (h : is_digit c = true) : decide (c = '.') = false := by
  rw [decide_eq_false_iff_not]
  intro hc
  subst hc
  exact absurd h (by decide)

/-- A map that fixes every member of a list fixes the list. -/
theorem map_id_of_mem {α : Type} (f : α → α) (l : List α) (h : ∀ x ∈ l, f x = x) :
    l.map f = l := by
  induction l with
  | nil => rfl
  | cons a t ih =>
    rw [List.map_cons, h a (List.mem_cons_self a t),
      ih (fun x hx => h x (List.mem_cons_of_mem a hx))]

/-- `rfind` ignores characters before a suffix when splicing lists. -/
theorem rfind_append (p : Char → Bool) (l1 l2 : Str) :
    rfind p (l1 ++ l2) =
      match rfind p l2 with
      | some j => some (l1.length + j)
      | none => rfind p l1 := by
  induction l1 with
  | nil =>
    cases h : rfind p l2 with
    | some j => simp [h]
    | none => simp [h, rfind]
  | cons a t ih =>
    rw [List.cons_append]
    cases h : rfind p l2 with
    | some j =>
      rw [h] at ih
      simp only [rfind, ih, h, List.length_cons]
      congr 1
      omega
    | none =>
      rw [h] at ih
      simp only [rfind, ih, h]

/-- `rfind` over characters all failing the predicate is `none`. -/
theorem rfind_none (p : Char → Bool) (l : Str) (h : ∀ x ∈ l, p x = false) :
    rfind p l = none := by
  induction l with
  | nil => rfl
  | cons a t ih =>
    rw [rfind, ih (fun x hx => h x (List.mem_cons_of_mem a hx)),
      h a (List.mem_cons_self a t)]
    rfl

/-- `rfind` over a prefix, a hit, and a miss-only suffix finds the hit. -/
theorem rfind_sandwich (p : Char → Bool) (l1 : Str) (c : Char) (l2 : Str)
    (hc : p c = true) (h2 : ∀ x ∈ l2, p x = false) :
    rfind p (l1 ++ c :: l2) = some l1.length := by
  have hcl2 : rfind p (c :: l2) = some 0 := by
    simp only [rfind, rfind_none p l2 h2, hc]
    rfl
  rw [rfind_append, hcl2]
  simp

/-- `trim` is the identity on a string whose first and last characters are
not whitespace. -/
theorem trim_eq_self (a : Char) (N : Str) (d : Char)
    (hhead : is_ws a = false) (hlast : is_ws d = false) :
    trim (a :: N ++ [d]) = a :: N ++ [d] := by
  unfold trim
  rw [List.cons_append]
  have h1 : List.dropWhile is_ws (a :: (N ++ [d])) = a :: (N ++ [d]) := by
    rw [List.dropWhile_cons, hhead]
    simp
  rw [h1]
  have h2 : (a :: (N ++ [d])).reverse = d :: (N.reverse ++ [a]) := by simp
  rw [h2]
  have h3 : List.dropWhile is_ws (d :: (N.reverse ++ [a])) = d :: (N.reverse ++ [a]) := by
    rw [List.dropWhile_cons, hlast]
    simp
  rw [h3, ← h2, List.reverse_reverse]

/-- The combined character map of the normalization: ASCII-lowercase, then
slash replacement, applied in the order of the source. -/
def norm_map (l : Str) : Str := (l.map to_ascii_lowercase).map replace_slash

theorem norm_map_append (l1 l2 : Str) :
    norm_map (l1 ++ l2) = norm_map l1 ++ norm_map l2 := by
  simp [norm_map]

theorem norm_map_digits (D : Str) (h : D.all is_digit = true) : norm_map D = D := by
  have hmem : ∀ x ∈ D, is_digit x = true := List.all_eq_true.mp h
  unfold norm_map
  rw [map_id_of_mem to_ascii_lowercase D (fun x hx => to_ascii_lowercase_digit (hmem x hx)),
    map_id_of_mem replace_slash D (fun x hx => replace_slash_digit (hmem x hx))]

theorem norm_map_space : norm_map [' '] = [' '] := by decide

/-- The core of `normalize_title`: once the trimmed and character-mapped
title has the shape `A ++ ' ' :: D` with `D` free of whitespace, the split
happens exactly after that space and `D` is zero-padded. -/
theorem normalize_core (t : Str) (A D : Str)
    (htrimmap : ((trim t).map to_ascii_lowercase).map replace_slash = A ++ ' ' :: D)
    (hD : ∀ x ∈ D, is_ws x = false) :
    normalize_title t =
      some (A ++ ' ' :: pad_start
        (match rfind (fun c => c = '.') D with
          | some i => D.length - i + 4
          | none => 4) '0' D) := by
  have hpos : rfind is_ws (A ++ ' ' :: D) = some A.length :=
    rfind_sandwich is_ws A ' ' D (by decide) hD
  have hsplit : A ++ ' ' :: D = (A ++ [' ']) ++ D := by simp
  have hlen : (A ++ [' ']).length = A.length + 1 := by simp
  have htake : (A ++ ' ' :: D).take (A.length + 1) = A ++ [' '] := by
    rw [hsplit]
    exact List.take_left' hlen
  have hdrop : (A ++ ' ' :: D).drop (A.length + 1) = D := by
    rw [hsplit]
    exact List.drop_left' hlen
  have hcond : ¬ (A ++ ' ' :: D).length < A.length + 1 := by
    simp only [List.length_append, List.length_cons]
    omega
  simp only [normalize_title, htrimmap, hpos, Option.getD_some, if_neg hcond, htake, hdrop]
  simp

/-- `normalize_title` on a title of the shape `prefix ++ ' ' ++ digits`:
the digit token is zero-padded to width 4. -/
theorem normalize_title_token (c : Char) (P D : Str)
    (hc : is_ws c = false) (hD : D ≠ []) (hdig : D.all is_digit = true) :
    normalize_title (c :: P ++ ' ' :: D) =
      some (norm_map (c :: P) ++ ' ' :: pad_start 4 '0' D) := by
  have hmem : ∀ x ∈ D, is_digit x = true := List.all_eq_true.mp hdig
  have hDws : ∀ x ∈ D, is_ws x = false := fun x hx => is_ws_digit (hmem x hx)
  rcases List.eq_nil_or_concat D with hnil | ⟨E, d, hED⟩
  · exact absurd hnil hD
  rw [List.concat_eq_append] at hED
  have hd : is_digit d = true := hmem d (by rw [hED]; simp)
  have htrim : trim (c :: P ++ ' ' :: D) = c :: P ++ ' ' :: D := by
    have hshape : c :: P ++ ' ' :: D = c :: (P ++ ' ' :: E) ++ [d] := by
      rw [hED]; simp
    rw [hshape]
    exact trim_eq_self c (P ++ ' ' :: E) d hc (is_ws_digit hd)
  have hmap : ((trim (c :: P ++ ' ' :: D)).map to_ascii_lowercase).map replace_slash =
      norm_map (c :: P) ++ ' ' :: D := by
    rw [htrim]
    have hsplit : c :: P ++ ' ' :: D = (c :: P) ++ ([' '] ++ D) := by simp
    calc ((c :: P ++ ' ' :: D).map to_ascii_lowercase).map replace_slash
        = norm_map (c :: P ++ ' ' :: D) := rfl
      _ = norm_map (c :: P) ++ (norm_map [' '] ++ norm_map D) := by
          rw [hsplit, norm_map_append, norm_map_append]
      _ = norm_map (c :: P) ++ ' ' :: D := by
          rw [norm_map_space, norm_map_digits D hdig]
          rfl
  rw [normalize_core _ _ _ hmap hDws,
    rfind_none _ D (fun x hx => digit_ne_dot (hmem x hx))]

/-- `normalize_title` on a title of the shape
`prefix ++ ' ' ++ digits ++ '.' ++ digits`: the token is zero-padded to
width `4 + 1 + |fractional digits|`. -/
theorem normalize_title_token_frac (c : Char) (P I F : Str)
    (hc : is_ws c = false) (hI : I.all is_digit = true) (hF : F.all is_digit = true) :
    normalize_title (c :: P ++ ' ' :: (I ++ '.' :: F)) =
      some (norm_map (c :: P) ++ ' ' :: pad_start (F.length + 5) '0' (I ++ '.' :: F)) := by
  have hmemI : ∀ x ∈ I, is_digit x = true := List.all_eq_true.mp hI
  have hmemF : ∀ x ∈ F, is_digit x = true := List.all_eq_true.mp hF
  have hDws : ∀ x ∈ I ++ '.' :: F, is_ws x = false := by
    intro x hx
    rcases List.mem_append.mp hx with hx | hx
    · exact is_ws_digit (hmemI x hx)
    · rcases List.mem_cons.mp hx with hx | hx
      · subst hx; decide
      · exact is_ws_digit (hmemF x hx)
  have hdigdot : ∀ x ∈ I ++ '.' :: F, is_digit x = true ∨ x = '.' := by
    intro x hx
    rcases List.mem_append.mp hx with hx | hx
    · exact Or.inl (hmemI x hx)
    · rcases List.mem_cons.mp hx with hx | hx
      · exact Or.inr hx
      · exact Or.inl (hmemF x hx)
  have hlast : ∃ E e, I ++ '.' :: F = E ++ [e] ∧ is_ws e = false := by
    rcases List.eq_nil_or_concat F with hnil | ⟨E, d, hED⟩
    · subst hnil
      exact ⟨I, '.', by simp, by decide⟩
    · rw [List.concat_eq_append] at hED
      refine ⟨I ++ '.' :: E, d, by rw [hED]; simp, ?_⟩
      exact is_ws_digit (hmemF d (by rw [hED]; simp))
  obtain ⟨E, e, hEe, hews⟩ := hlast
  have htrim : trim (c :: P ++ ' ' :: (I ++ '.' :: F)) = c :: P ++ ' ' :: (I ++ '.' :: F) := by
    have hshape : c :: P ++ ' ' :: (I ++ '.' :: F) = c :: (P ++ ' ' :: E) ++ [e] := by
      rw [hEe]
      simp
    rw [hshape]
    exact trim_eq_self c (P ++ ' ' :: E) e hc hews
  have hnd : norm_map (I ++ '.' :: F) = I ++ '.' :: F := by
    unfold norm_map
    rw [map_id_of_mem to_ascii_lowercase _ (fun x hx => by
        rcases hdigdot x hx with h | h
        · exact to_ascii_lowercase_digit h
        · subst h; decide),
      map_id_of_mem replace_slash _ (fun x hx => by
        rcases hdigdot x hx with h | h
        · exact replace_slash_digit h
        · subst h; decide)]
  have hmap : ((trim (c :: P ++ ' ' :: (I ++ '.' :: F))).map to_ascii_lowercase).map
      replace_slash = norm_map (c :: P) ++ ' ' :: (I ++ '.' :: F) := by
    rw [htrim]
    have hsplit : c :: P ++ ' ' :: (I ++ '.' :: F) =
        (c :: P) ++ ([' '] ++ (I ++ '.' :: F)) := by simp
    calc ((c :: P ++ ' ' :: (I ++ '.' :: F)).map to_ascii_lowercase).map replace_slash
        = norm_map (c :: P ++ ' ' :: (I ++ '.' :: F)) := rfl
      _ = norm_map (c :: P) ++ (norm_map [' '] ++ norm_map (I ++ '.' :: F)) := by
          rw [hsplit, norm_map_append, norm_map_append]
      _ = norm_map (c :: P) ++ ' ' :: (I ++ '.' :: F) := by
          rw [norm_map_space, hnd]
          rfl
  have hdot : rfind (fun c => c = '.') (I ++ '.' :: F) = some I.length :=
    rfind_sandwich _ I '.' F (by decide)
      (fun x hx => digit_ne_dot (hmemF x hx))
  rw [normalize_core _ _ _ hmap hDws, hdot]
  have hwidth : (I ++ '.' :: F).length - I.length + 4 = F.length + 5 := by
    simp only [List.length_append, List.length_cons]
    omega
  show some (norm_map (c :: P) ++ ' ' ::
      pad_start ((I ++ '.' :: F).length - I.length + 4) '0' (I ++ '.' :: F)) = _
  rw [hwidth]

/-- `digits_val`'s fold, started from an arbitrary accumulator. -/
theorem digits_val_go (s : Str) (i : Nat) :
    s.foldl (fun a c => a * 10 + digit_val c) i = i * 10 ^ s.length + digits_val s := by
  induction s generalizing i with
  | nil => simp [digits_val]
  | cons c s ih =>
    rw [List.foldl_cons, ih]
    have hdv : digits_val (c :: s) = digit_val c * 10 ^ s.length + digits_val s := by
      show List.foldl (fun a c => a * 10 + digit_val c) (0 * 10 + digit_val c) s = _
      rw [ih]
      ring_nf
    rw [hdv, List.length_cons]
    ring

/-- Peel the leading digit off `digits_val`. -/
theorem digits_val_cons (c : Char) (s : Str) :
    digits_val (c :: s) = digit_val c * 10 ^ s.length + digits_val s := by
  show List.foldl (fun a c => a * 10 + digit_val c) (0 * 10 + digit_val c) s = _
  rw [digits_val_go]
  ring_nf

/-- The value of a digit string is below `10 ^ length`. -/
theorem digits_val_lt_pow (s : Str) (h : s.all is_digit = true) :
    digits_val s < 10 ^ s.length := by
  induction s with
  | nil => simp [digits_val]
  | cons c t ih =>
    have hmem := List.all_eq_true.mp h
    have hc : is_digit c = true := hmem c (List.mem_cons_self c t)
    have ht : t.all is_digit = true :=
      List.all_eq_true.mpr (fun x hx => hmem x (List.mem_cons_of_mem c hx))
    have hdv : digit_val c ≤ 9 := by
      simp only [is_digit, Bool.and_eq_true, decide_eq_true_eq] at hc
      unfold digit_val
      omega
    have hlt := ih ht
    rw [digits_val_cons, List.length_cons, pow_succ]
    have h1 : digit_val c * 10 ^ t.length + digits_val t <
        digit_val c * 10 ^ t.length + 10 ^ t.length := by omega
    have h2 : digit_val c * 10 ^ t.length + 10 ^ t.length = (digit_val c + 1) * 10 ^ t.length := by
      ring
    have h3 : (digit_val c + 1) * 10 ^ t.length ≤ 10 * 10 ^ t.length :=
      Nat.mul_le_mul_right _ (by omega)
    have h4 : 10 ^ t.length * 10 = 10 * 10 ^ t.length := by ring
    omega

/-- Leading `'0'` padding does not change the numeric value. -/
theorem digits_val_replicate_zero (k : Nat) (s : Str) :
    digits_val (List.replicate k '0' ++ s) = digits_val s := by
  induction k with
  | zero => simp
  | succ k ih =>
    rw [List.replicate_succ, List.cons_append, digits_val_cons, ih]
    have : digit_val '0' = 0 := by decide
    rw [this]
    ring

/-- `lex_lt` on lists sharing a common prefix compares the suffixes. -/
theorem lex_lt_append_left (A x y : Str) : lex_lt (A ++ x) (A ++ y) = lex_lt x y := by
  induction A with
  | nil => rfl
  | cons a A ih =>
    rw [List.cons_append, List.cons_append]
    show (if a.toNat < a.toNat then true
      else if a.toNat < a.toNat then false
      else lex_lt (A ++ x) (A ++ y)) = lex_lt x y
    rw [if_neg (Nat.lt_irrefl _), if_neg (Nat.lt_irrefl _), ih]

/-- A strictly smaller leading digit makes the whole equal-length digit
string numerically smaller. -/
theorem digits_val_lt_of_head_lt (a b : Char) (l1 l2 : Str)
    (hlen : l1.length = l2.length)
    (ha : is_digit a = true) (hb : is_digit b = true)
    (h1 : l1.all is_digit = true)
    (hab : a.toNat < b.toNat) :
    digits_val (a :: l1) < digits_val (b :: l2) := by
  rw [digits_val_cons, digits_val_cons, hlen]
  have hdv : digit_val a + 1 ≤ digit_val b := by
    simp only [is_digit, Bool.and_eq_true, decide_eq_true_eq] at ha hb
    unfold digit_val
    omega
  have hbound := digits_val_lt_pow l1 h1
  rw [hlen] at hbound
  have h2 : digit_val a * 10 ^ l2.length + digits_val l1 <
      (digit_val a + 1) * 10 ^ l2.length := by
    have : (digit_val a + 1) * 10 ^ l2.length =
        digit_val a * 10 ^ l2.length + 10 ^ l2.length := by ring
    omega
  have h3 : (digit_val a + 1) * 10 ^ l2.length ≤ digit_val b * 10 ^ l2.length :=
    Nat.mul_le_mul_right _ hdv
  omega

/-- On equal-length digit strings, byte-wise lexicographic order is exactly
numeric order. -/
theorem lex_lt_iff_digits_val_lt (l1 l2 : Str) (hlen : l1.length = l2.length)
    (h1 : l1.all is_digit = true) (h2 : l2.all is_digit = true) :
    (lex_lt l1 l2 = true ↔ digits_val l1 < digits_val l2) := by
  induction l1 generalizing l2 with
  | nil =>
    have h0 : l2 = [] := by
      cases l2 with
      | nil => rfl
      | cons b t => simp at hlen
    subst h0
    simp [lex_lt, digits_val]
  | cons a t1 ih =>
    cases l2 with
    | nil => simp at hlen
    | cons b t2 =>
      have hlen' : t1.length = t2.length := by
        simp only [List.length_cons] at hlen
        omega
      have hmem1 := List.all_eq_true.mp h1
      have hmem2 := List.all_eq_true.mp h2
      have ha : is_digit a = true := hmem1 a (List.mem_cons_self a t1)
      have hb : is_digit b = true := hmem2 b (List.mem_cons_self b t2)
      have ht1 : t1.all is_digit = true :=
        List.all_eq_true.mpr (fun x hx => hmem1 x (List.mem_cons_of_mem a hx))
      have ht2 : t2.all is_digit = true :=
        List.all_eq_true.mpr (fun x hx => hmem2 x (List.mem_cons_of_mem b hx))
      show (if a.toNat < b.toNat then true
        else if b.toNat < a.toNat then false
        else lex_lt t1 t2) = true ↔ _
      rcases Nat.lt_trichotomy a.toNat b.toNat with hab | hab | hab
      · rw [if_pos hab]
        exact iff_of_true rfl (digits_val_lt_of_head_lt a b t1 t2 hlen' ha hb ht1 hab)
      · rw [if_neg (by omega), if_neg (by omega)]
        have hdv : digit_val a = digit_val b := by
          unfold digit_val
          omega
        rw [ih t2 hlen' ht1 ht2, digits_val_cons, digits_val_cons, hlen', hdv]
        omega
      · rw [if_neg (by omega), if_pos hab]
        have hgt := digits_val_lt_of_head_lt b a t2 t1 hlen'.symm hb ha ht2 hab
        exact iff_of_false (by simp) (by omega)

/-- Padded length. -/
theorem pad_start_length (w : Nat) (c : Char) (s : Str) (h : s.length ≤ w) :
    (pad_start w c s).length = w := by
  simp [pad_start]
  omega

/-- Padding with `'0'` keeps a digit string a digit string. -/
theorem pad_start_all_digits (w : Nat) (s : Str) (h : s.all is_digit = true) :
    (pad_start w '0' s).all is_digit = true := by
  simp only [pad_start, List.all_append, Bool.and_eq_true]
  refine ⟨List.all_eq_true.mpr (fun x hx => ?_), h⟩
  rw [List.eq_of_mem_replicate hx]
  decide

/-- Padding with `'0'` keeps the numeric value. -/
theorem pad_start_digits_val (w : Nat) (s : Str) :
    digits_val (pad_start w '0' s) = digits_val s :=
  digits_val_replicate_zero _ s

/-- For digit tokens of length at most 4, the zero-padded forms compare
lexicographically exactly as their numeric values. -/
theorem padded_token_order (D1 D2 : Str)
    (h1 : D1.all is_digit = true) (h2 : D2.all is_digit = true)
    (hl1 : D1.length ≤ 4) (hl2 : D2.length ≤ 4) :
    (lex_lt (pad_start 4 '0' D1) (pad_start 4 '0' D2) = true ↔
      digits_val D1 < digits_val D2) := by
  rw [← pad_start_digits_val 4 D1, ← pad_start_digits_val 4 D2]
  exact lex_lt_iff_digits_val_lt _ _
    (by rw [pad_start_length _ _ _ hl1, pad_start_length _ _ _ hl2])
    (pad_start_all_digits _ _ h1) (pad_start_all_digits _ _ h2)

/-- An Option-monad `mapM` whose function succeeds on every element is the
`some` of the corresponding `filterMap`. -/
theorem option_mapM_eq_filterMap {α β : Type} (f : α → Option β) (l : List α)
    (h : ∀ a ∈ l, (f a).isSome = true) :
    l.mapM f = some (l.filterMap f) := by
  induction l with
  | nil => rfl
  | cons a t ih =>
    obtain ⟨b, hb⟩ := Option.isSome_iff_exists.mp (h a (List.mem_cons_self a t))
    have ht := ih (fun x hx => h x (List.mem_cons_of_mem a hx))
    have hfm : List.filterMap f (a :: t) = b :: List.filterMap f t := by
      rw [List.filterMap_cons, hb]
    rw [List.mapM_cons, hb, ht, hfm]
    rfl

/-- C2 (amended): for every parsed title page whose anchors all normalize
without panicking, `fetch_chapters_urls` returns the chapter records in the
reverse of their DOM order; each title is normalized (trimmed, lower-cased,
`'/'` replaced, trailing token zero-padded to width 4, or to 4 plus the
length of the `'.'`-suffix when a dot is present); and for two titles
sharing the same prefix whose trailing numeric tokens are digit strings of
at most 4 digits, numeric token order agrees with lexicographic order of
the produced titles.  (Beyond 4 integer digits the agreement fails — see
the counterexample.) -/
theorem fetch_chapters_reverse_and_order
    (anchors : List Anchor)
    (hok : ∀ a ∈ anchors, (anchor_chapter a).isSome = true)
    (c : Char) (P D1 D2 I F : Str)
    (hc : is_ws c = false)
    (hD1 : D1 ≠ []) (hd1 : D1.all is_digit = true) (hl1 : D1.length ≤ 4)
    (hD2 : D2 ≠ []) (hd2 : D2.all is_digit = true) (hl2 : D2.length ≤ 4)
    (hI : I.all is_digit = true) (hF : F.all is_digit = true) :
    fetch_chapters_urls anchors = some ((anchors.filterMap anchor_chapter).reverse) ∧
    normalize_title (c :: P ++ ' ' :: D1) =
      some (norm_map (c :: P) ++ ' ' :: pad_start 4 '0' D1) ∧
    normalize_title (c :: P ++ ' ' :: (I ++ '.' :: F)) =
      some (norm_map (c :: P) ++ ' ' :: pad_start (F.length + 5) '0' (I ++ '.' :: F)) ∧
    (lex_lt ((normalize_title (c :: P ++ ' ' :: D1)).getD [])
        ((normalize_title (c :: P ++ ' ' :: D2)).getD []) = true ↔
      digits_val D1 < digits_val D2) := by
  refine ⟨?_, normalize_title_token c P D1 hc hD1 hd1,
    normalize_title_token_frac c P I F hc hI hF, ?_⟩
  · rw [fetch_chapters_urls, option_mapM_eq_filterMap anchor_chapter anchors hok]
    rfl
  · rw [normalize_title_token c P D1 hc hD1 hd1, normalize_title_token c P D2 hc hD2 hd2]
    simp only [Option.getD_some]
    have hsplit1 : norm_map (c :: P) ++ ' ' :: pad_start 4 '0' D1 =
        (norm_map (c :: P) ++ [' ']) ++ pad_start 4 '0' D1 := by simp
    have hsplit2 : norm_map (c :: P) ++ ' ' :: pad_start 4 '0' D2 =
        (norm_map (c :: P) ++ [' ']) ++ pad_start 4 '0' D2 := by simp
    rw [hsplit1, hsplit2, lex_lt_append_left]
    exact padded_token_order D1 D2 hd1 hd2 hl1 hl2

/-- Witness for C2 (amended) at one anchor and the tokens 9, 10 and 10.5. -/
theorem fetch_chapters_reverse_and_order_witness :
    fetch_chapters_urls [{ href := some (str "/chapters/2"), title := some (str "Chapter 2") }] =
      some ((List.filterMap anchor_chapter
        [{ href := some (str "/chapters/2"), title := some (str "Chapter 2") }]).reverse) ∧
    normalize_title ('c' :: str "hapter" ++ ' ' :: str "9") =
      some (norm_map ('c' :: str "hapter") ++ ' ' :: pad_start 4 '0' (str "9")) ∧
    normalize_title ('c' :: str "hapter" ++ ' ' :: (str "10" ++ '.' :: str "5")) =
      some (norm_map ('c' :: str "hapter") ++ ' ' ::
        pad_start ((str "5").length + 5) '0' (str "10" ++ '.' :: str "5")) ∧
    (lex_lt ((normalize_title ('c' :: str "hapter" ++ ' ' :: str "9")).getD [])
        ((normalize_title ('c' :: str "hapter" ++ ' ' :: str "10")).getD []) = true ↔
      digits_val (str "9") < digits_val (str "10")) := by
  exact fetch_chapters_reverse_and_order
    [{ href := some (str "/chapters/2"), title := some (str "Chapter 2") }]
    (by decide) 'c' (str "hapter") (str "9") (str "10") (str "10") (str "5")
    (by decide) (by decide) (by decide) (by decide) (by decide) (by decide)
    (by decide) (by decide) (by decide)
